import Mathlib

/-!
Verification of the chunked CDL raster-to-table pipeline
(`data_processer_4.py`, `data_processor_2.py`, `merge_chunk.py`).

The Python source is shallowly embedded: the windowed scan loop, the
per-window chunk extractor, the checkpoint tracker and the merge/verify
pipeline become executable Lean definitions, and the spec's properties are
proved (or refuted) about those definitions.  External collaborators
(rasterio decoding, pyproj reprojection, the filesystem) are modelled as
explicit parameters: the grid is a function from (row, col) to a value, the
affine transform is a function from (row, col) to native coordinates, and
fallible I/O steps of the merge are driven by explicit per-file outcome
flags.
-/

/-- A rasterio window, as constructed by `Window(x, y, chunk_width,
chunk_height)` in the scan loops: `col_off` and `row_off` are the top-left
corner, `width`/`height` the extent. -/
structure Window where
  col_off : Nat
  row_off : Nat
  width : Nat
  height : Nat
deriving DecidableEq, Repr

/-- Python `range(0, stop, step)` for `step > 0`: the multiples of `step`
below `stop`, in increasing order. -/
def rangeStep (stop step : Nat) : List Nat :=
  (List.range ((stop + step - 1) / step)).map (· * step)

/-- `total_chunks` of `SingleYearCDLProcessor.process` (and of
`CaliforniaCDLProcessor.process_single_year`):
`((height + chunk_size - 1) // chunk_size) * ((width + chunk_size - 1) // chunk_size)`,
i.e. the ceiling-division window count. -/
def totalChunks (height width chunk_size : Nat) : Nat :=
  ((height + chunk_size - 1) / chunk_size) * ((width + chunk_size - 1) / chunk_size)

/-- The scan loop's window sequence: `for y in range(0, height, chunk_size)`
outer, `for x in range(0, width, chunk_size)` inner, each window
`Window(x, y, min(chunk_size, width - x), min(chunk_size, height - y))`. -/
def scanWindows (height width chunk_size : Nat) : List Window :=
  (rangeStep height chunk_size).flatMap (fun y =>
    (rangeStep width chunk_size).map (fun x =>
      { col_off := x, row_off := y,
        width := min chunk_size (width - x),
        height := min chunk_size (height - y) }))

/-- Grid cell `(r, c)` lies inside window `w`. -/
def covers (w : Window) (r c : Nat) : Prop :=
  w.row_off ≤ r ∧ r < w.row_off + w.height ∧ w.col_off ≤ c ∧ c < w.col_off + w.width

instance (w : Window) (r c : Nat) : Decidable (covers w r c) := by
  unfold covers; infer_instance

/-- Row-major order on windows: earlier row band, or same row band and
earlier column. -/
def rowMajorLt (a b : Window) : Prop :=
  a.row_off < b.row_off ∨ (a.row_off = b.row_off ∧ a.col_off < b.col_off)

lemma mem_rangeStep {stop step y : Nat} :
    y ∈ rangeStep stop step ↔
      ∃ k, k < (stop + step - 1) / step ∧ y = k * step := by
  simp only [rangeStep, List.mem_map, List.mem_range]
  constructor
  · rintro ⟨k, hk, rfl⟩; exact ⟨k, hk, rfl⟩
  · rintro ⟨k, hk, rfl⟩; exact ⟨k, hk, rfl⟩

lemma ceilDiv_eq_pred_div_succ {n step : Nat} (hn : 0 < n) (hstep : 0 < step) :
    (n + step - 1) / step = (n - 1) / step + 1 := by
  have h : n + step - 1 = (n - 1) + step := by omega
  rw [h, Nat.add_div_right _ hstep]

/-- For a cell index `r < n`, the band offset `(r / step) * step` is an
element of `rangeStep n step`. -/
lemma div_mul_mem_rangeStep {n step r : Nat} (hr : r < n) (hstep : 0 < step) :
    (r / step) * step ∈ rangeStep n step := by
  rw [mem_rangeStep]
  refine ⟨r / step, ?_, rfl⟩
  have hn : 0 < n := by omega
  rw [ceilDiv_eq_pred_div_succ hn hstep]
  have : r / step ≤ (n - 1) / step := Nat.div_le_div_right (by omega)
  omega

lemma div_lt_ceil {n cs r : Nat} (hr : r < n) (hcs : 0 < cs) :
    r / cs < (n + cs - 1) / cs := by
  rw [ceilDiv_eq_pred_div_succ (by omega) hcs]
  have : r / cs ≤ (n - 1) / cs := Nat.div_le_div_right (by omega)
  omega

lemma band_offset_lt {n cs i : Nat} (hn : 0 < n) (hcs : 0 < cs)
    (hi : i < (n + cs - 1) / cs) : i * cs < n := by
  rw [ceilDiv_eq_pred_div_succ hn hcs] at hi
  have h1 : i ≤ (n - 1) / cs := by omega
  have h2 : i * cs ≤ ((n - 1) / cs) * cs := Nat.mul_le_mul_right _ h1
  have h3 : ((n - 1) / cs) * cs ≤ n - 1 := Nat.div_mul_le_self _ _
  omega

/-- The band starting at `(r / cs) * cs` covers position `r` (for `r < n`,
with band extent `min cs (n - offset)`). -/
lemma band_le_and_lt {n cs r : Nat} (hr : r < n) (hcs : 0 < cs) :
    (r / cs) * cs ≤ r ∧ r < (r / cs) * cs + min cs (n - (r / cs) * cs) := by
  have h1 : cs * (r / cs) + r % cs = r := Nat.div_add_mod r cs
  rw [Nat.mul_comm] at h1
  have h2 : r % cs < cs := Nat.mod_lt _ hcs
  rcases min_choice cs (n - (r / cs) * cs) with h | h <;> rw [h] <;> omega

/-- If band `k` (extent `min cs (n - k * cs)`) covers `r`, then `k` is
determined: `k = r / cs`. -/
lemma band_index_eq {n cs r k : Nat} (h1 : k * cs ≤ r)
    (h2 : r < k * cs + min cs (n - k * cs)) : r / cs = k := by
  have h3 : (k + 1) * cs = k * cs + cs := by ring
  have h4 : min cs (n - k * cs) ≤ cs := min_le_left _ _
  exact Nat.div_eq_of_lt_le h1 (by omega)

lemma mem_scanWindows {H W cs : Nat} {win : Window} :
    win ∈ scanWindows H W cs ↔
      ∃ i, i < (H + cs - 1) / cs ∧ ∃ j, j < (W + cs - 1) / cs ∧
        win = { col_off := j * cs, row_off := i * cs,
                width := min cs (W - j * cs), height := min cs (H - i * cs) } := by
  simp only [scanWindows, List.mem_flatMap, List.mem_map, mem_rangeStep]
  constructor
  · rintro ⟨y, ⟨i, hi, rfl⟩, x, ⟨j, hj, rfl⟩, rfl⟩
    exact ⟨i, hi, j, hj, rfl⟩
  · rintro ⟨i, hi, j, hj, rfl⟩
    exact ⟨i * cs, ⟨i, hi, rfl⟩, j * cs, ⟨j, hj, rfl⟩, rfl⟩

lemma length_rangeStep (stop step : Nat) :
    (rangeStep stop step).length = (stop + step - 1) / step := by
  simp [rangeStep]

lemma length_scanWindows (H W cs : Nat) :
    (scanWindows H W cs).length = totalChunks H W cs := by
  rw [scanWindows, List.length_flatMap]
  have hmap : List.map (List.length ∘ (fun y => (rangeStep W cs).map (fun x =>
        ({ col_off := x, row_off := y, width := min cs (W - x),
           height := min cs (H - y) } : Window)))) (rangeStep H cs)
      = List.replicate (rangeStep H cs).length ((W + cs - 1) / cs) := by
    rw [← List.map_const']
    apply List.map_congr_left
    intro a _
    simp [length_rangeStep]
  rw [hmap, List.sum_replicate, smul_eq_mul, length_rangeStep, totalChunks]

lemma pairwise_rangeStep (stop step : Nat) (hstep : 0 < step) :
    (rangeStep stop step).Pairwise (· < ·) := by
  rw [rangeStep, List.pairwise_map]
  exact (List.pairwise_lt_range _).imp
    (fun h => (Nat.mul_lt_mul_right hstep).mpr h)

lemma pairwise_scanWindows (H W cs : Nat) (hcs : 0 < cs) :
    (scanWindows H W cs).Pairwise rowMajorLt := by
  have hflat : scanWindows H W cs
      = (List.map (fun y => (rangeStep W cs).map (fun x =>
          ({ col_off := x, row_off := y, width := min cs (W - x),
             height := min cs (H - y) } : Window))) (rangeStep H cs)).flatten := rfl
  rw [hflat, List.pairwise_flatten]
  refine ⟨?_, ?_⟩
  · intro l hl
    rw [List.mem_map] at hl
    obtain ⟨y, _, rfl⟩ := hl
    rw [List.pairwise_map]
    exact (pairwise_rangeStep W cs hcs).imp (fun h => Or.inr ⟨rfl, h⟩)
  · have := pairwise_rangeStep H cs hcs
    rw [List.pairwise_map]
    refine this.imp ?_
    intro y₁ y₂ hlt
    intro a ha b hb
    rw [List.mem_map] at ha hb
    obtain ⟨x₁, _, rfl⟩ := ha
    obtain ⟨x₂, _, rfl⟩ := hb
    exact Or.inl hlt

/-- The tiling property of the scan loops: window count equals the
ceiling-division product, every grid cell is covered by exactly one
generated window, windows never extend past the grid, each window has
extent `min chunk_size remaining`, and the list is strictly ordered
row-major (row outer, column inner). -/
def TilingSpec (H W cs : Nat) : Prop :=
  (scanWindows H W cs).length = totalChunks H W cs ∧
  (∀ r c, r < H → c < W → ∃! win, win ∈ scanWindows H W cs ∧ covers win r c) ∧
  (∀ win ∈ scanWindows H W cs, ∀ r c, covers win r c → r < H ∧ c < W) ∧
  (∀ win ∈ scanWindows H W cs,
      win.height = min cs (H - win.row_off) ∧ win.width = min cs (W - win.col_off)) ∧
  (scanWindows H W cs).Pairwise rowMajorLt

/-- C4: for every positive grid height, width and chunk size, the scan
loop's windows exactly tile the grid with no gaps and no overlaps, are
visited in row-major order with each window sized
`min chunk_size remaining`, and the window count equals
`ceil(height/chunk_size) * ceil(width/chunk_size)` (the code's
`total_chunks` formula). -/
theorem scanWindows_tiling (H W cs : Nat) (hH : 0 < H) (hW : 0 < W)
    (hcs : 0 < cs) : TilingSpec H W cs := by
  refine ⟨length_scanWindows H W cs, ?_, ?_, ?_, pairwise_scanWindows H W cs hcs⟩
  · intro r c hr hc
    refine ⟨{ col_off := (c / cs) * cs, row_off := (r / cs) * cs,
              width := min cs (W - (c / cs) * cs),
              height := min cs (H - (r / cs) * cs) }, ⟨?_, ?_⟩, ?_⟩
    · rw [mem_scanWindows]
      exact ⟨r / cs, div_lt_ceil hr hcs, c / cs, div_lt_ceil hc hcs, rfl⟩
    · obtain ⟨h1, h2⟩ := band_le_and_lt hr hcs
      obtain ⟨h3, h4⟩ := band_le_and_lt hc hcs
      exact ⟨h1, h2, h3, h4⟩
    · rintro win ⟨hmem, hcov⟩
      rw [mem_scanWindows] at hmem
      obtain ⟨i, hi, j, hj, rfl⟩ := hmem
      obtain ⟨h1, h2, h3, h4⟩ := hcov
      have hieq : r / cs = i := band_index_eq h1 h2
      have hjeq : c / cs = j := band_index_eq h3 h4
      subst hieq; subst hjeq
      rfl
  · intro win hmem r c hcov
    rw [mem_scanWindows] at hmem
    obtain ⟨i, hi, j, hj, rfl⟩ := hmem
    simp only [covers] at hcov
    obtain ⟨h1, h2, h3, h4⟩ := hcov
    have hri : i * cs < H := band_offset_lt hH hcs hi
    have hcj : j * cs < W := band_offset_lt hW hcs hj
    have hm1 := min_le_right cs (H - i * cs)
    have hm2 := min_le_right cs (W - j * cs)
    exact ⟨by omega, by omega⟩
  · intro win hmem
    rw [mem_scanWindows] at hmem
    obtain ⟨i, hi, j, hj, rfl⟩ := hmem
    exact ⟨rfl, rfl⟩

/-- Witness: `scanWindows_tiling` applied at height 3, width 5,
chunk size 2. -/
theorem scanWindows_tiling_witness :
    0 < 3 ∧ 0 < 5 ∧ 0 < 2 ∧ TilingSpec 3 5 2 :=
  ⟨by decide, by decide, by decide,
    scanWindows_tiling 3 5 2 (by decide) (by decide) (by decide)⟩

/-- California bounds reprojected into the grid's native CRS (EPSG:5070),
as produced by `get_ca_bounds_5070` — the reprojection itself is an
external collaborator, so the reprojected bounds are a parameter. -/
structure Bounds where
  west : ℚ
  east : ℚ
  north : ℚ
  south : ℚ
deriving DecidableEq, Repr

/-- `SingleYearCDLProcessor.is_in_california`: inclusive bounds comparison
`west <= x <= east and south <= y <= north`. -/
def is_in_california (b : Bounds) (x y : ℚ) : Bool :=
  decide (b.west ≤ x) && decide (x ≤ b.east) &&
    (decide (b.south ≤ y) && decide (y ≤ b.north))

/-- The opened raster handle (external collaborator `rasterio.open`):
`data r c` is the grid value at absolute cell (row `r`, col `c`), i.e.
what `src.read(1, window)` returns cell-wise, and `xy r c` is the
native-CRS coordinate `rasterio.transform.xy(src.transform, r, c)`. -/
structure Src where
  height : Nat
  width : Nat
  data : Nat → Nat → Int
  xy : Nat → Nat → ℚ × ℚ

/-- The static `CDL_CROP_MAPPING` table (identical in both processor
variants). -/
def CDL_CROP_MAPPING : List (Int × String) :=
  [(0, "Background"), (1, "Corn"), (2, "Cotton"), (3, "Rice"), (4, "Sorghum"),
   (5, "Soybeans"), (6, "Sunflower"), (10, "Peanuts"), (11, "Tobacco"),
   (12, "Sweet Corn"), (13, "Pop or Orn Corn"), (14, "Mint"), (21, "Barley"),
   (22, "Durum Wheat"), (23, "Spring Wheat"), (24, "Winter Wheat"),
   (25, "Other Small Grains"), (26, "Dbl Crop WinWht/Soybeans"), (27, "Rye"),
   (28, "Oats"), (29, "Millet"), (30, "Speltz"), (31, "Canola"),
   (32, "Flaxseed"), (33, "Safflower"), (34, "Rape Seed"), (35, "Mustard"),
   (36, "Alfalfa"), (37, "Other Hay/Non Alfalfa"), (38, "Camelina"),
   (39, "Buckwheat"), (41, "Sugarbeets"), (42, "Dry Beans"), (43, "Potatoes"),
   (44, "Other Crops"), (45, "Sugarcane"), (46, "Sweet Potatoes"),
   (47, "Misc Vegs & Fruits"), (48, "Watermelons"), (49, "Onions"),
   (50, "Cucumbers"), (51, "Chick Peas"), (52, "Lentils"), (53, "Peas"),
   (54, "Tomatoes"), (55, "Caneberries"), (56, "Hops"), (57, "Herbs"),
   (58, "Clover/Wildflowers"), (59, "Sod/Grass Seed"), (60, "Switchgrass"),
   (61, "Fallow/Idle Cropland"), (62, "Pasture/Grass"), (63, "Forest"),
   (64, "Shrubland"), (65, "Barren"), (66, "Cherries"), (67, "Peaches"),
   (68, "Apples"), (69, "Grapes"), (70, "Christmas Trees"),
   (71, "Other Tree Crops"), (72, "Citrus"), (74, "Pecans"), (75, "Almonds"),
   (76, "Walnuts"), (77, "Pears"), (81, "Clouds/No Data"), (82, "Developed"),
   (83, "Water"), (87, "Wetlands"), (88, "Nonag/Undefined"),
   (92, "Aquaculture"), (111, "Open Water"), (112, "Perennial Ice/Snow"),
   (121, "Developed/Open Space"), (122, "Developed/Low Intensity"),
   (123, "Developed/Med Intensity"), (124, "Developed/High Intensity"),
   (131, "Barren"), (141, "Deciduous Forest"), (142, "Evergreen Forest"),
   (143, "Mixed Forest"), (152, "Shrubland"), (176, "Grassland/Pasture"),
   (190, "Woody Wetlands"), (195, "Herbaceous Wetlands"), (204, "Pistachios"),
   (205, "Triticale"), (206, "Carrots"), (207, "Asparagus"), (208, "Garlic"),
   (209, "Cantaloupes"), (210, "Prunes"), (211, "Olives"), (212, "Oranges"),
   (213, "Honeydew Melons"), (214, "Broccoli"), (215, "Avocados"),
   (216, "Peppers"), (217, "Pomegranates"), (218, "Nectarines"),
   (219, "Greens"), (220, "Plums"), (221, "Strawberries"), (222, "Squash"),
   (223, "Apricots"), (224, "Vetch"), (225, "Dbl Crop WinWht/Corn"),
   (226, "Dbl Crop Oats/Corn"), (227, "Lettuce"),
   (228, "Dbl Crop Triticale/Corn"), (229, "Pumpkins"),
   (230, "Dbl Crop Lettuce/Durum Wht"), (231, "Dbl Crop Lettuce/Cantaloupe"),
   (232, "Dbl Crop Lettuce/Cotton"), (233, "Dbl Crop Lettuce/Barley"),
   (234, "Dbl Crop Durum Wht/Sorghum"), (235, "Dbl Crop Barley/Sorghum"),
   (236, "Dbl Crop WinWht/Sorghum"), (237, "Dbl Crop Barley/Corn"),
   (238, "Dbl Crop WinWht/Cotton"), (239, "Dbl Crop Soybeans/Cotton"),
   (240, "Dbl Crop Soybeans/Oats"), (241, "Dbl Crop Corn/Soybeans"),
   (242, "Blueberries"), (243, "Cabbage"), (244, "Cauliflower"),
   (245, "Celery"), (246, "Radishes"), (247, "Turnips"), (248, "Eggplants"),
   (249, "Gourds"), (250, "Cranberries"), (254, "Dbl Crop Barley/Soybeans")]

/-- `df['crop_code'].map(CDL_CROP_MAPPING)`: codes absent from the table
yield a missing (`none`) label. -/
def cropName (code : Int) : Option String :=
  CDL_CROP_MAPPING.lookup code

/-- One output row of a chunk DataFrame:
`{year, crop_code, longitude, latitude, crop_name}`. -/
structure Record where
  year : Int
  crop_code : Int
  longitude : ℚ
  latitude : ℚ
  crop_name : Option String
deriving DecidableEq, Repr

/-- The window's cells as relative (row, col) offsets, in the row-major
order in which `np.meshgrid(..., indexing='ij')` lays them out and
`np.nonzero` scans them. -/
def cellList (w : Window) : List (Nat × Nat) :=
  (List.range w.height).product (List.range w.width)

/-- The mask of `process_chunk`: `(chunk_data > 0) & ca_mask`, evaluated at
the relative cell `c`, whose absolute position is
`(row_off + c.1, col_off + c.2)` with native coordinate `xy` there. -/
def valid_cell (src : Src) (b : Bounds) (w : Window) (c : Nat × Nat) : Bool :=
  decide (0 < src.data (w.row_off + c.1) (w.col_off + c.2)) &&
    is_in_california b (src.xy (w.row_off + c.1) (w.col_off + c.2)).1
      (src.xy (w.row_off + c.1) (w.col_off + c.2)).2

/-- The record emitted for one masked cell: `year`, the cell's value as
`crop_code`, the reprojected (`transformer.transform`, an external
collaborator `reproj`) coordinate as `longitude`/`latitude`, and the
`CDL_CROP_MAPPING` label. -/
def mkRecord (year : Int) (reproj : ℚ × ℚ → ℚ × ℚ) (src : Src) (w : Window)
    (c : Nat × Nat) : Record :=
  { year := year,
    crop_code := src.data (w.row_off + c.1) (w.col_off + c.2),
    longitude := (reproj (src.xy (w.row_off + c.1) (w.col_off + c.2))).1,
    latitude := (reproj (src.xy (w.row_off + c.1) (w.col_off + c.2))).2,
    crop_name := cropName (src.data (w.row_off + c.1) (w.col_off + c.2)) }

/-- `SingleYearCDLProcessor.process_chunk`: read the window, build the mask
`(value > 0) & in-California`, return `None` when `not np.any(valid_mask)`,
otherwise the DataFrame with one record per masked cell (in `np.nonzero`
row-major order). -/
def process_chunk (year : Int) (reproj : ℚ × ℚ → ℚ × ℚ) (src : Src)
    (b : Bounds) (w : Window) : Option (List Record) :=
  let cells := (cellList w).filter (valid_cell src b w)
  if cells.isEmpty then none
  else some (cells.map (mkRecord year reproj src w))

/-- The rows of the chunk produced for a window (empty when
`process_chunk` returns `None`). -/
def chunkRecords (year : Int) (reproj : ℚ × ℚ → ℚ × ℚ) (src : Src)
    (b : Bounds) (w : Window) : List Record :=
  (process_chunk year reproj src b w).getD []

lemma nodup_cellList (w : Window) : (cellList w).Nodup :=
  (List.nodup_range _).product (List.nodup_range _)

lemma mem_cellList {w : Window} {c : Nat × Nat} :
    c ∈ cellList w ↔ c.1 < w.height ∧ c.2 < w.width := by
  obtain ⟨i, j⟩ := c
  simp [cellList, List.mem_product]

lemma toFinset_cellList (w : Window) :
    (cellList w).toFinset = Finset.range w.height ×ˢ Finset.range w.width := by
  ext c
  simp [mem_cellList, Finset.mem_product]

lemma chunkRecords_eq (year : Int) (reproj : ℚ × ℚ → ℚ × ℚ) (src : Src)
    (b : Bounds) (w : Window) :
    chunkRecords year reproj src b w
      = ((cellList w).filter (valid_cell src b w)).map
          (mkRecord year reproj src w) := by
  unfold chunkRecords process_chunk
  cases h : ((cellList w).filter (valid_cell src b w)).isEmpty
  · simp [h]
  · rw [List.isEmpty_iff] at h
    simp [h]

/-- The extractor's contract: the chunk has exactly one record per cell of
the window whose value is positive and whose native coordinate passes the
California filter (counted over the window's cell set), the records are
exactly the masked cells' records in row-major order, every emitted record
has a positive code and carries the run's year, and a window whose values
are all `≤ 0` yields no chunk. -/
def ExtractorSpec (year : Int) (reproj : ℚ × ℚ → ℚ × ℚ) (src : Src)
    (b : Bounds) (w : Window) : Prop :=
  (chunkRecords year reproj src b w).length
      = ((Finset.range w.height ×ˢ Finset.range w.width).filter
          (fun c => valid_cell src b w c = true)).card ∧
  chunkRecords year reproj src b w
      = ((cellList w).filter (valid_cell src b w)).map
          (mkRecord year reproj src w) ∧
  (∀ rec ∈ chunkRecords year reproj src b w,
      0 < rec.crop_code ∧ rec.year = year) ∧
  ((∀ i j, i < w.height → j < w.width →
      src.data (w.row_off + i) (w.col_off + j) ≤ 0) →
    process_chunk year reproj src b w = none)

/-- C5: for every window, `process_chunk` emits exactly one record per cell
whose value is strictly positive and whose native-CRS coordinate satisfies
the region filter, and no other records; a window containing only values
`≤ 0` produces an empty chunk (`None`). -/
theorem process_chunk_mask (year : Int) (reproj : ℚ × ℚ → ℚ × ℚ) (src : Src)
    (b : Bounds) (w : Window) : ExtractorSpec year reproj src b w := by
  have heq := chunkRecords_eq year reproj src b w
  refine ⟨?_, heq, ?_, ?_⟩
  · rw [heq, List.length_map]
    have hnf : ((cellList w).filter (valid_cell src b w)).Nodup :=
      (nodup_cellList w).filter _
    rw [← List.toFinset_card_of_nodup hnf, List.toFinset_filter,
      toFinset_cellList]
  · intro rec hrec
    rw [heq, List.mem_map] at hrec
    obtain ⟨c, hc, rfl⟩ := hrec
    rw [List.mem_filter] at hc
    have hv := hc.2
    rw [valid_cell, Bool.and_eq_true, decide_eq_true_eq] at hv
    exact ⟨hv.1, rfl⟩
  · intro hall
    have hnil : (cellList w).filter (valid_cell src b w) = [] := by
      rw [List.filter_eq_nil_iff]
      intro c hc
      rw [mem_cellList] at hc
      have hle := hall c.1 c.2 hc.1 hc.2
      rw [valid_cell, Bool.and_eq_true, decide_eq_true_eq]
      intro hcontra
      omega
    rw [process_chunk]
    simp [hnil]

/-- The progress record persisted in `progress.json`:
`{'last_chunk': int, 'status': str}`. -/
structure Progress where
  last_chunk : Int
  status : String
deriving DecidableEq, Repr

/-- `SingleYearCDLProcessor.load_progress`: read `progress.json` when it
exists, else the default `{'last_chunk': 0, 'status': 'processing'}`. -/
def load_progress (file : Option Progress) : Progress :=
  file.getD { last_chunk := 0, status := "processing" }

/-- `SingleYearCDLProcessor.save_progress`:
`self.progress['last_chunk'] = chunk` followed by dumping the whole record;
the persisted record becomes the updated in-memory record.  Note there is
no guard comparing `chunk` with the previous value. -/
def save_progress (p : Progress) (chunk : Int) : Progress :=
  { p with last_chunk := chunk }

/-- The progress record after a sequence of `save_progress` calls. -/
def runSaves (p : Progress) (args : List Int) : Progress :=
  args.foldl save_progress p

lemma runSaves_chain_le (p : Progress) (args : List Int)
    (h : List.Chain (· ≤ ·) p.last_chunk args) :
    p.last_chunk ≤ (runSaves p args).last_chunk := by
  induction args generalizing p with
  | nil => exact le_refl _
  | cons a t ih =>
    rw [List.chain_cons] at h
    have hstep : (save_progress p a).last_chunk = a := rfl
    have := ih (save_progress p a) (by rw [hstep]; exact h.2)
    rw [hstep] at this
    exact le_trans h.1 this

/-- C8 counterexample: with no prior checkpoint file, `save_progress 5`
followed by `save_progress 3` leaves `last_chunk = 3 < 5`: the persisted
value decreased between the two loads, because `save_progress` overwrites
unconditionally. -/
theorem save_progress_not_monotone :
    (runSaves (load_progress none) ([5] ++ [3])).last_chunk
      < (runSaves (load_progress none) [5]).last_chunk := by decide

/-- C8 amended: `save_progress` is last-write-wins, so the loaded value is
nondecreasing over a run exactly when the saved chunk numbers themselves
never decrease from the starting value — which is how the scan driver
calls it (strictly increasing chunk numbers). -/
theorem runSaves_monotone (p : Progress) (l1 l2 : List Int)
    (h : List.Chain (· ≤ ·) p.last_chunk (l1 ++ l2)) :
    (runSaves p l1).last_chunk ≤ (runSaves p (l1 ++ l2)).last_chunk := by
  induction l1 generalizing p with
  | nil => exact runSaves_chain_le p l2 h
  | cons a t ih =>
    rw [List.cons_append, List.chain_cons] at h
    have hstep : (save_progress p a).last_chunk = a := rfl
    have := ih (save_progress p a) (by rw [hstep]; exact h.2)
    exact this

/-- Witness: `runSaves_monotone` at the default progress, saves
`[1] ++ [2, 3]`. -/
theorem runSaves_monotone_witness :
    List.Chain (· ≤ ·) (load_progress none).last_chunk ([1] ++ [2, 3]) ∧
    (runSaves (load_progress none) [1]).last_chunk
      ≤ (runSaves (load_progress none) ([1] ++ [2, 3])).last_chunk :=
  ⟨by simp [List.chain_cons, load_progress],
    runSaves_monotone (load_progress none) [1] [2, 3]
      (by simp [List.chain_cons, load_progress])⟩

/-- C10: `save_progress` writes only the `last_chunk` field: the `status`
observed by a subsequent `load_progress` of the persisted record equals the
status that was last loaded (or defaulted), after any number of saves. -/
theorem runSaves_status (file : Option Progress) (args : List Int) :
    (load_progress (some (runSaves (load_progress file) args))).status
      = (load_progress file).status := by
  show (runSaves (load_progress file) args).status = (load_progress file).status
  induction args generalizing file with
  | nil => rfl
  | cons a t ih =>
    show (runSaves (save_progress (load_progress file) a) t).status = _
    have : save_progress (load_progress file) a
        = load_progress (some (save_progress (load_progress file) a)) := rfl
    rw [this, ih (some (save_progress (load_progress file) a))]
    rfl

/-- On-disk content of `progress.json`, at the granularity relevant to
crash atomicity: missing, truncated-empty (the state right after
`open(..., 'w')` truncates the file), or a complete serialized record. -/
inductive FileContent
  | absent
  | truncated
  | complete (p : Progress)
deriving DecidableEq, Repr

/-- `json.load` on the file: parses only a complete record; an absent or
truncated file yields no value (a parse error). -/
def parseProgress : FileContent → Option Progress
  | FileContent.complete p => some p
  | _ => none

/-- The successive on-disk states traversed by `save_progress`, which does
`open(self.progress_file, 'w')` (truncate in place — there is no
temporary-file-and-rename step in the source) followed by `json.dump`:
prior content, truncated file, complete new record. -/
def saveStates (old : FileContent) (p : Progress) (chunk : Int) :
    List FileContent :=
  [old, FileContent.truncated, FileContent.complete (save_progress p chunk)]

/-- C9 counterexample: saving chunk 7 over an old complete record passes
through the truncated on-disk state, which is neither the old nor the new
record and is unparsable — a crash between the truncating open and the
completion of `json.dump` leaves a torn checkpoint. -/
theorem save_progress_not_atomic :
    FileContent.truncated ∈
        saveStates (FileContent.complete { last_chunk := 5, status := "processing" })
          { last_chunk := 5, status := "processing" } 7 ∧
    FileContent.truncated
        ≠ FileContent.complete { last_chunk := 5, status := "processing" } ∧
    FileContent.truncated
        ≠ FileContent.complete
            (save_progress { last_chunk := 5, status := "processing" } 7) ∧
    parseProgress FileContent.truncated = none := by decide

/-- C9 amended: a crash during `save_progress` leaves the old content, the
complete new record, or the truncated (empty, unparsable) file — the last
being possible because the file is truncated in place; absent a crash the
final on-disk state is the complete new record. -/
theorem saveStates_characterization (old : FileContent) (p : Progress)
    (chunk : Int) :
    (∀ st ∈ saveStates old p chunk,
        st = old ∨ st = FileContent.complete (save_progress p chunk) ∨
          (st = FileContent.truncated ∧ parseProgress st = none)) ∧
    (saveStates old p chunk).getLast?
      = some (FileContent.complete (save_progress p chunk)) := by
  constructor
  · intro st hst
    rw [saveStates, List.mem_cons, List.mem_cons, List.mem_singleton] at hst
    rcases hst with h | h | h
    · exact Or.inl h
    · exact Or.inr (Or.inr ⟨h, by rw [h]; rfl⟩)
    · exact Or.inr (Or.inl h)
  · rfl

/-- An observable I/O action of the scan loop in
`SingleYearCDLProcessor.process`, tagged with the chunk number of the
window it belongs to. -/
inductive Ev
  | read (chunk : Nat)
  | write (chunk : Nat) (recs : List Record)
  | save (chunk : Nat)
deriving DecidableEq, Repr

/-- The chunk number an event belongs to. -/
def Ev.chunkOf : Ev → Nat
  | Ev.read n => n
  | Ev.write n _ => n
  | Ev.save n => n

/-- The fixed inputs of one scan run of `SingleYearCDLProcessor.process`:
the run's year, the external reprojection, the opened raster, the
reprojected California bounds, and the chunk size. -/
structure ScanEnv where
  year : Int
  reproj : ℚ × ℚ → ℚ × ℚ
  src : Src
  bounds : Bounds
  chunk_size : Nat

/-- The scan loop's windows paired with their 1-based chunk numbers
(`chunk_num` is incremented at the top of every inner iteration). -/
def numberedWindows (e : ScanEnv) : List (Nat × Window) :=
  (scanWindows e.src.height e.src.width e.chunk_size).enum.map
    (fun p => (p.1 + 1, p.2))

/-- `save_chunk`'s effect for chunk number `n` given `process_chunk`'s
result: no write when the chunk is `None` (`if chunk_df is not None`
guard in `process`) or empty (`save_chunk` returns for empty frames),
otherwise one chunk-file write. -/
def chunkFileWrite (n : Nat) : Option (List Record) → List Ev
  | none => []
  | some recs => if recs.isEmpty then [] else [Ev.write n recs]

/-- The events of one non-skipped window: the grid read inside
`process_chunk`; then the conditional chunk-file write; then
`save_progress(chunk_num)`. -/
def windowEvents (e : ScanEnv) (n : Nat) (w : Window) : List Ev :=
  Ev.read n ::
    (chunkFileWrite n (process_chunk e.year e.reproj e.src e.bounds w)
      ++ [Ev.save n])

/-- The event trace of the scan loop started with loaded checkpoint
`start_chunk`: windows in row-major order, a window whose chunk number is
`≤ start_chunk` is skipped entirely (`continue` before any grid access),
all others run `windowEvents`. -/
def scanTrace (e : ScanEnv) (start_chunk : Nat) : List Ev :=
  (numberedWindows e).flatMap (fun p =>
    if p.1 ≤ start_chunk then [] else windowEvents e p.1 p.2)

/-- The non-empty chunk files a trace durably writes:
(chunk number, records) pairs, in order. -/
def writesOf (tr : List Ev) : List (Nat × List Record) :=
  tr.filterMap (fun ev => match ev with
    | Ev.write n recs => some (n, recs)
    | _ => none)

/-- The checkpoint value after a trace: the argument of the last
`save_progress` call, or the starting value if none occurred. -/
def lastSave (s : Nat) (tr : List Ev) : Nat :=
  tr.foldl (fun acc ev => match ev with | Ev.save n => n | _ => acc) s

lemma writesOf_append (t1 t2 : List Ev) :
    writesOf (t1 ++ t2) = writesOf t1 ++ writesOf t2 :=
  List.filterMap_append _ _ _

lemma numberedWindows_pos (e : ScanEnv) :
    ∀ p ∈ numberedWindows e, 1 ≤ p.1 := by
  intro p hp
  rw [numberedWindows, List.mem_map] at hp
  obtain ⟨q, _, rfl⟩ := hp
  exact Nat.succ_le_succ (Nat.zero_le _)

lemma numberedWindows_increasing (e : ScanEnv) :
    (numberedWindows e).Pairwise (fun p q => p.1 < q.1) := by
  rw [numberedWindows, List.pairwise_map]
  have h : List.Pairwise (fun p q : Nat × Window => p.1 < q.1)
      (scanWindows e.src.height e.src.width e.chunk_size).enum := by
    rw [← List.pairwise_map (f := Prod.fst), List.enum_map_fst]
    exact List.pairwise_lt_range _
  exact h.imp (fun hlt => Nat.succ_lt_succ hlt)

lemma mem_chunkFileWrite {n : Nat} {df : Option (List Record)} {ev : Ev} :
    ev ∈ chunkFileWrite n df → ∃ recs, ev = Ev.write n recs ∧ recs ≠ [] := by
  intro hev
  rcases df with _ | recs
  · cases hev
  · rw [chunkFileWrite] at hev
    rcases he : recs.isEmpty
    · rw [he] at hev
      simp only [Bool.false_eq_true, if_false, List.mem_singleton] at hev
      refine ⟨recs, hev, ?_⟩
      intro hnil
      rw [hnil] at he
      simp at he
    · rw [he] at hev
      simp at hev

lemma chunkOf_windowEvents (e : ScanEnv) (n : Nat) (w : Window) :
    ∀ ev ∈ windowEvents e n w, ev.chunkOf = n := by
  intro ev hev
  rw [windowEvents, List.mem_cons] at hev
  rcases hev with rfl | hev
  · rfl
  · rw [List.mem_append] at hev
    rcases hev with hev | hev
    · obtain ⟨recs, rfl, _⟩ := mem_chunkFileWrite hev
      rfl
    · rw [List.mem_singleton] at hev
      subst hev; rfl

/-- `windowEvents` ends with its `save` and contains no other save. -/
lemma windowEvents_structure (e : ScanEnv) (n : Nat) (w : Window) :
    ∃ front, windowEvents e n w = front ++ [Ev.save n] ∧
      ∀ m, Ev.save m ∉ front := by
  refine ⟨Ev.read n ::
      chunkFileWrite n (process_chunk e.year e.reproj e.src e.bounds w),
      rfl, ?_⟩
  intro m hm
  rw [List.mem_cons] at hm
  rcases hm with hm | hm
  · cases hm
  · obtain ⟨recs, heq, _⟩ := mem_chunkFileWrite hm
    cases heq

lemma writesOf_windowEvents (e : ScanEnv) (n : Nat) (w : Window) :
    writesOf (windowEvents e n w)
      = writesOf (chunkFileWrite n
          (process_chunk e.year e.reproj e.src e.bounds w)) := by
  rw [windowEvents, writesOf, writesOf, List.filterMap_cons,
    List.filterMap_append]
  simp

lemma writesOf_flatMap {α : Type} (f : α → List Ev) (l : List α) :
    writesOf (l.flatMap f) = l.flatMap (fun p => writesOf (f p)) := by
  induction l with
  | nil => rfl
  | cons a t ih => rw [List.flatMap_cons, writesOf_append, ih, List.flatMap_cons]

lemma filter_flatMap' {α β : Type} (p : β → Bool) (f : α → List β)
    (l : List α) :
    (l.flatMap f).filter p = l.flatMap (fun a => (f a).filter p) := by
  induction l with
  | nil => rfl
  | cons a t ih =>
    rw [List.flatMap_cons, List.filter_append, ih, List.flatMap_cons]

lemma scanTrace_zero (e : ScanEnv) :
    scanTrace e 0
      = (numberedWindows e).flatMap (fun p => windowEvents e p.1 p.2) := by
  apply List.flatMap_congr
  intro p hp
  have := numberedWindows_pos e p hp
  rw [if_neg (by omega)]

lemma filter_writes_windowEvents (e : ScanEnv) (k n : Nat) (w : Window) :
    (writesOf (windowEvents e n w)).filter (fun q => decide (k < q.1))
      = if n ≤ k then [] else writesOf (windowEvents e n w) := by
  rw [writesOf_windowEvents]
  rcases process_chunk e.year e.reproj e.src e.bounds w with _ | recs
  · simp [chunkFileWrite, writesOf]
  · rw [chunkFileWrite]
    rcases recs.isEmpty
    · by_cases hk : n ≤ k
      · simp [writesOf, hk, Nat.not_lt.mpr hk]
      · simp [writesOf, hk, Nat.lt_of_not_le hk]
    · simp [writesOf]

/-- C2: resume idempotence of the scan.  The run resumed from checkpoint
`k` touches only chunks with number `> k` (in particular it performs no
grid read for any chunk `≤ k`), its chunk-file writes are exactly the
full run's writes restricted to chunk numbers `> k`, and together with the
files a run killed after chunk `k` had already written (the full run's
writes with number `≤ k`) they form exactly the uninterrupted run's set of
non-empty chunk files. -/
theorem scan_resume (e : ScanEnv) (k : Nat) :
    writesOf (scanTrace e k)
        = (writesOf (scanTrace e 0)).filter (fun q => decide (k < q.1)) ∧
    (∀ ev ∈ scanTrace e k, k < ev.chunkOf) ∧
    ((writesOf (scanTrace e 0)).filter (fun q => decide (q.1 ≤ k))
        ++ writesOf (scanTrace e k)).Perm (writesOf (scanTrace e 0)) := by
  have h1 : writesOf (scanTrace e k)
      = (writesOf (scanTrace e 0)).filter (fun q => decide (k < q.1)) := by
    rw [scanTrace_zero, writesOf_flatMap, filter_flatMap', scanTrace,
      writesOf_flatMap]
    apply List.flatMap_congr
    intro p hp
    rw [filter_writes_windowEvents]
    by_cases hk : p.1 ≤ k
    · rw [if_pos hk, if_pos hk]
      rfl
    · rw [if_neg hk, if_neg hk]
  refine ⟨h1, ?_, ?_⟩
  · intro ev hev
    rw [scanTrace, List.mem_flatMap] at hev
    obtain ⟨p, hp, hin⟩ := hev
    by_cases hk : p.1 ≤ k
    · rw [if_pos hk] at hin; cases hin
    · rw [if_neg hk] at hin
      rw [chunkOf_windowEvents e p.1 p.2 ev hin]
      omega
  · rw [h1]
    have hcong : (writesOf (scanTrace e 0)).filter (fun q => decide (k < q.1))
        = (writesOf (scanTrace e 0)).filter
            (fun q => !(fun q : Nat × List Record => decide (q.1 ≤ k)) q) := by
      apply List.filter_congr
      intro q _
      by_cases h : q.1 ≤ k
      · simp [h, Nat.not_lt.mpr h]
      · simp [h, Nat.lt_of_not_le h]
    rw [hcong]
    exact List.filter_append_perm _ _

/-- The guarded per-window step of the scan loop: skip (`continue`) when
the chunk number is at most the loaded checkpoint, else the window's
events. -/
def scanStep (e : ScanEnv) (s : Nat) (p : Nat × Window) : List Ev :=
  if p.1 ≤ s then [] else windowEvents e p.1 p.2

lemma scanTrace_eq_flatMap (e : ScanEnv) (s : Nat) :
    scanTrace e s = (numberedWindows e).flatMap (scanStep e s) := rfl

lemma mem_scanStep {e : ScanEnv} {s : Nat} {p : Nat × Window} {ev : Ev}
    (hev : ev ∈ scanStep e s p) :
    s < p.1 ∧ ev ∈ windowEvents e p.1 p.2 ∧ ev.chunkOf = p.1 := by
  rw [scanStep] at hev
  by_cases hg : p.1 ≤ s
  · rw [if_pos hg] at hev; cases hev
  · rw [if_neg hg] at hev
    exact ⟨by omega, hev, chunkOf_windowEvents e p.1 p.2 ev hev⟩

/-- Decomposing a prefix/suffix split of a `flatMap`: the split point falls
either between two of the generating elements, or inside one element's
block. -/
lemma flatMap_prefix_decomp {α β : Type} (f : α → List β) :
    ∀ (l : List α) (pre suffix : List β), l.flatMap f = pre ++ suffix →
      ∃ l₁ l₂, l = l₁ ++ l₂ ∧
        ((pre = l₁.flatMap f ∧ suffix = l₂.flatMap f) ∨
         ∃ x l₃ p q, l₂ = x :: l₃ ∧ f x = p ++ q ∧
           pre = l₁.flatMap f ++ p ∧ suffix = q ++ l₃.flatMap f) := by
  intro l
  induction l with
  | nil =>
    intro pre suffix h
    rw [List.flatMap_nil] at h
    have hp : pre = [] ∧ suffix = [] := by
      constructor
      · cases pre with
        | nil => rfl
        | cons a t => cases h
      · cases pre with
        | nil => exact h.symm
        | cons a t => cases h
    refine ⟨[], [], rfl, Or.inl ⟨hp.1, hp.2⟩⟩
  | cons a t ih =>
    intro pre suffix h
    rw [List.flatMap_cons] at h
    rcases List.append_eq_append_iff.mp h with ⟨a', ha1, ha2⟩ | ⟨c', hc1, hc2⟩
    · obtain ⟨l₁, l₂, hl, hcase⟩ := ih a' suffix ha2
      refine ⟨a :: l₁, l₂, by rw [hl]; rfl, ?_⟩
      rcases hcase with ⟨hpre, hsuf⟩ | ⟨x, l₃, p, q, hl₂, hfx, hpre, hsuf⟩
      · exact Or.inl ⟨by rw [ha1, hpre, List.flatMap_cons], hsuf⟩
      · exact Or.inr ⟨x, l₃, p, q, hl₂, hfx,
          by rw [ha1, hpre, List.flatMap_cons, List.append_assoc], hsuf⟩
    · exact ⟨[], a :: t, rfl,
        Or.inr ⟨a, t, pre, c', rfl, hc1, by rw [List.flatMap_nil]; rfl, hc2⟩⟩

lemma lastSave_mem (s : Nat) :
    ∀ tr : List Ev, lastSave s tr = s ∨ Ev.save (lastSave s tr) ∈ tr := by
  intro tr
  induction tr generalizing s with
  | nil => exact Or.inl rfl
  | cons ev t ih =>
    rcases ev with n | ⟨n, recs⟩ | n
    · have hstep : lastSave s (Ev.read n :: t) = lastSave s t := rfl
      rcases ih s with hcase | hcase
      · exact Or.inl (by rw [hstep, hcase])
      · exact Or.inr (by rw [hstep]; exact List.mem_cons_of_mem _ hcase)
    · have hstep : lastSave s (Ev.write n recs :: t) = lastSave s t := rfl
      rcases ih s with hcase | hcase
      · exact Or.inl (by rw [hstep, hcase])
      · exact Or.inr (by rw [hstep]; exact List.mem_cons_of_mem _ hcase)
    · have hstep : lastSave s (Ev.save n :: t) = lastSave n t := rfl
      rcases ih n with hcase | hcase
      · refine Or.inr ?_
        rw [hstep, hcase]
        exact List.mem_cons_self _ _
      · exact Or.inr (by rw [hstep]; exact List.mem_cons_of_mem _ hcase)

/-- Membership in the trace from a window's events. -/
lemma windowEvents_mem_scanTrace {e : ScanEnv} {s : Nat} {p : Nat × Window}
    (hp : p ∈ numberedWindows e) (hguard : s < p.1) :
    ∀ ev ∈ windowEvents e p.1 p.2, ev ∈ scanTrace e s := by
  intro ev hev
  rw [scanTrace_eq_flatMap, List.mem_flatMap]
  refine ⟨p, hp, ?_⟩
  rw [scanStep, if_neg (by omega)]
  exact hev

/-- Once a window's `save` is in the durable past, every event of every
window with chunk number up to that save is in the durable past too: the
save is the last event of its window's segment and segments are ordered by
chunk number. -/
lemma save_prefix_closure (e : ScanEnv) (s : Nat) (pre suffix : List Ev)
    (hsplit : scanTrace e s = pre ++ suffix) {n : Nat}
    (hsave : Ev.save n ∈ pre) :
    ∀ ev ∈ scanTrace e s, ev.chunkOf ≤ n → ev ∈ pre := by
  have hsplit' : (numberedWindows e).flatMap (scanStep e s) = pre ++ suffix :=
    by rw [← scanTrace_eq_flatMap]; exact hsplit
  obtain ⟨l₁, l₂, hl, hcase⟩ :=
    flatMap_prefix_decomp (scanStep e s) (numberedWindows e) pre suffix hsplit'
  have hpw := numberedWindows_increasing e
  rw [hl, List.pairwise_append] at hpw
  intro ev hev hle
  have hev2 : ev ∈ pre ∨ ev ∈ suffix := by
    rw [← List.mem_append, ← hsplit]; exact hev
  rcases hcase with ⟨hpre, hsuf⟩ | ⟨x, l₃, p, q, hl₂, hfx, hpre, hsuf⟩
  · rw [hpre, List.mem_flatMap] at hsave
    obtain ⟨y, hy, hyin⟩ := hsave
    have hyn : n = y.1 := (mem_scanStep hyin).2.2
    rcases hev2 with hin | hin
    · exact hin
    · exfalso
      rw [hsuf, List.mem_flatMap] at hin
      obtain ⟨z, hz, hzin⟩ := hin
      have hzc : ev.chunkOf = z.1 := (mem_scanStep hzin).2.2
      have := hpw.2.2 y hy z hz
      omega
  · rw [hpre, List.mem_append] at hsave
    have hxl₂ : x ∈ l₂ := by rw [hl₂]; exact List.mem_cons_self _ _
    rcases hsave with hsave | hsave
    · -- the save lies in a fully completed earlier segment
      rw [List.mem_flatMap] at hsave
      obtain ⟨y, hy, hyin⟩ := hsave
      have hyn : n = y.1 := (mem_scanStep hyin).2.2
      rcases hev2 with hin | hin
      · exact hin
      · exfalso
        rw [hsuf, List.mem_append] at hin
        rcases hin with hin | hin
        · have hevx : ev ∈ scanStep e s x := by rw [hfx, List.mem_append]; exact Or.inr hin
          have hxc : ev.chunkOf = x.1 := (mem_scanStep hevx).2.2
          have := hpw.2.2 y hy x hxl₂
          omega
        · rw [List.mem_flatMap] at hin
          obtain ⟨z, hz, hzin⟩ := hin
          have hzc : ev.chunkOf = z.1 := (mem_scanStep hzin).2.2
          have hzl₂ : z ∈ l₂ := by rw [hl₂]; exact List.mem_cons_of_mem _ hz
          have := hpw.2.2 y hy z hzl₂
          omega
    · -- the save lies inside window x's partially-emitted segment:
      -- as the segment's last event, its presence forces the whole segment
      have hsavestep : Ev.save n ∈ scanStep e s x := by
        rw [hfx, List.mem_append]; exact Or.inl hsave
      obtain ⟨hguard, hwev, hxc⟩ := mem_scanStep hsavestep
      have hxn : n = x.1 := hxc
      have hstep : scanStep e s x = windowEvents e x.1 x.2 := by
        rw [scanStep, if_neg (by omega)]
      obtain ⟨front, hfront, hnos⟩ := windowEvents_structure e x.1 x.2
      have hpq : p ++ q = front ++ [Ev.save x.1] := by
        rw [← hfront, ← hstep, hfx]
      have hpfull : p = windowEvents e x.1 x.2 ∧ q = [] := by
        rcases List.append_eq_append_iff.mp hpq with ⟨a', ha1, ha2⟩ | ⟨c', hc1, hc2⟩
        · exfalso
          refine hnos n ?_
          rw [ha1, List.mem_append]
          exact Or.inl hsave
        · cases c' with
          | nil =>
            exfalso
            rw [List.append_nil] at hc1
            refine hnos n ?_
            rw [← hc1]
            exact hsave
          | cons hd tl =>
            have hhd : hd = Ev.save x.1 ∧ tl ++ q = [] := by
              have h5 := hc2.symm
              rw [List.cons_append] at h5
              have h6 := (List.cons.injEq _ _ _ _).mp h5
              exact ⟨h6.1, h6.2⟩
            have hq : q = [] := by
              have := hhd.2
              rcases tl with _ | ⟨_, _⟩
              · exact this
              · cases this
            refine ⟨?_, hq⟩
            rw [hfront, hc1, hhd.1]
            have htl : tl = [] := by
              have := hhd.2
              rcases tl with _ | ⟨_, _⟩
              · rfl
              · cases this
            rw [htl]
      rcases hev2 with hin | hin
      · exact hin
      · exfalso
        rw [hsuf, hpfull.2, List.nil_append, List.mem_flatMap] at hin
        obtain ⟨z, hz, hzin⟩ := hin
        have hzc : ev.chunkOf = z.1 := (mem_scanStep hzin).2.2
        have hxlt : x.1 < z.1 := by
          have hl₂pw := hpw.2.1
          rw [hl₂, List.pairwise_cons] at hl₂pw
          exact hl₂pw.1 z hz
        omega

/-- A chunk-file write in the durable past implies its window's grid read
is in the durable past: the read opens the window's segment. -/
lemma write_prefix_read (e : ScanEnv) (s : Nat) (pre suffix : List Ev)
    (hsplit : scanTrace e s = pre ++ suffix) {n : Nat} {recs : List Record}
    (hw : Ev.write n recs ∈ pre) : Ev.read n ∈ pre := by
  have hsplit' : (numberedWindows e).flatMap (scanStep e s) = pre ++ suffix :=
    by rw [← scanTrace_eq_flatMap]; exact hsplit
  obtain ⟨l₁, l₂, hl, hcase⟩ :=
    flatMap_prefix_decomp (scanStep e s) (numberedWindows e) pre suffix hsplit'
  have hfromseg : ∀ y ∈ l₁, Ev.write n recs ∈ scanStep e s y →
      Ev.read n ∈ l₁.flatMap (scanStep e s) := by
    intro y hy hyin
    obtain ⟨hguard, hwev, hyc⟩ := mem_scanStep hyin
    have hyn : n = y.1 := hyc
    rw [List.mem_flatMap]
    refine ⟨y, hy, ?_⟩
    rw [scanStep, if_neg (by omega), windowEvents, hyn]
    exact List.mem_cons_self _ _
  rcases hcase with ⟨hpre, hsuf⟩ | ⟨x, l₃, p, q, hl₂, hfx, hpre, hsuf⟩
  · rw [hpre, List.mem_flatMap] at hw
    obtain ⟨y, hy, hyin⟩ := hw
    rw [hpre]
    exact hfromseg y hy hyin
  · rw [hpre, List.mem_append] at hw
    rcases hw with hw | hw
    · rw [List.mem_flatMap] at hw
      obtain ⟨y, hy, hyin⟩ := hw
      rw [hpre, List.mem_append]
      exact Or.inl (hfromseg y hy hyin)
    · -- the write lies inside window x's partial segment, whose first
      -- element is the read
      have hwstep : Ev.write n recs ∈ scanStep e s x := by
        rw [hfx, List.mem_append]; exact Or.inl hw
      obtain ⟨hguard, hwev, hxc⟩ := mem_scanStep hwstep
      have hxn : n = x.1 := hxc
      have hstep : scanStep e s x = windowEvents e x.1 x.2 := by
        rw [scanStep, if_neg (by omega)]
      have hpq : p ++ q = Ev.read x.1 ::
          (chunkFileWrite x.1 (process_chunk e.year e.reproj e.src e.bounds x.2)
            ++ [Ev.save x.1]) := by
        rw [← hfx, hstep]; rfl
      cases p with
      | nil => cases hw
      | cons hd p' =>
        have hhd : hd = Ev.read x.1 := by
          rw [List.cons_append] at hpq
          exact ((List.cons.injEq _ _ _ _).mp hpq).1
        rw [hpre, List.mem_append]
        refine Or.inr ?_
        rw [hxn, ← hhd]
        exact List.mem_cons_self _ _

/-- C3: for every non-skipped window the scan performs extraction (grid
read), then the chunk-file write only if the chunk is non-empty, then the
checkpoint save with the current chunk number, in that order; the
checkpoint is advanced after every processed window including empty ones;
and at every point of the run (every prefix of the trace) the checkpoint
never runs ahead of durable state: every window up to the current
checkpoint value has all of its I/O — its read, its chunk-file write when
non-empty, its save — already completed. -/
theorem scan_checkpoint_order (e : ScanEnv) (s : Nat) (pre suffix : List Ev)
    (hsplit : scanTrace e s = pre ++ suffix) :
    (∀ n, Ev.save n ∈ pre → ∀ ev ∈ scanTrace e s, ev.chunkOf ≤ n → ev ∈ pre) ∧
    (∀ n recs, Ev.write n recs ∈ pre → Ev.read n ∈ pre) ∧
    (∀ p ∈ numberedWindows e, s < p.1 → p.1 ≤ lastSave s pre →
        ∀ ev ∈ windowEvents e p.1 p.2, ev ∈ pre) ∧
    (∀ p ∈ numberedWindows e, s < p.1 → Ev.save p.1 ∈ scanTrace e s) ∧
    (∀ n recs, Ev.write n recs ∈ scanTrace e s → recs ≠ []) := by
  refine ⟨fun n hs => save_prefix_closure e s pre suffix hsplit hs,
    fun n recs hw => write_prefix_read e s pre suffix hsplit hw, ?_, ?_, ?_⟩
  · intro p hp hsp hle ev hev
    rcases lastSave_mem s pre with hcase | hcase
    · omega
    · refine save_prefix_closure e s pre suffix hsplit hcase ev
        (windowEvents_mem_scanTrace hp hsp ev hev) ?_
      rw [chunkOf_windowEvents e p.1 p.2 ev hev]
      exact hle
  · intro p hp hsp
    obtain ⟨front, hfront, _⟩ := windowEvents_structure e p.1 p.2
    refine windowEvents_mem_scanTrace hp hsp _ ?_
    rw [hfront, List.mem_append]
    exact Or.inr (List.mem_singleton.mpr rfl)
  · intro n recs hw
    rw [scanTrace_eq_flatMap, List.mem_flatMap] at hw
    obtain ⟨p, hp, hin⟩ := hw
    obtain ⟨_, hwev, _⟩ := mem_scanStep hin
    rw [windowEvents, List.mem_cons] at hwev
    rcases hwev with heq | hwev
    · cases heq
    · rw [List.mem_append] at hwev
      rcases hwev with hwev | hwev
      · obtain ⟨recs', heq, hne⟩ := mem_chunkFileWrite hwev
        cases heq
        exact hne
      · rw [List.mem_singleton] at hwev
        cases hwev

/-- A concrete 1×1 grid whose single cell has value 36 ("Alfalfa") at the
native coordinate (0, 0). -/
def testSrc : Src :=
  { height := 1, width := 1, data := fun _ _ => 36, xy := fun _ _ => (0, 0) }

/-- Concrete native-CRS bounds containing the test grid's coordinate. -/
def testBounds : Bounds := { west := -1, east := 1, north := 1, south := -1 }

/-- A concrete scan environment: the 1×1 test grid, identity reprojection,
chunk size 1. -/
def testEnv : ScanEnv :=
  { year := 2008, reproj := id, src := testSrc, bounds := testBounds,
    chunk_size := 1 }

/-- Witness: `scan_checkpoint_order` on the concrete run over `testEnv`,
split after the write of chunk 1 and before its save. -/
theorem scan_checkpoint_order_witness :
    scanTrace testEnv 0
        = [Ev.read 1,
           Ev.write 1 [{ year := 2008, crop_code := 36, longitude := 0,
                         latitude := 0, crop_name := some "Alfalfa" }]]
          ++ [Ev.save 1] ∧
    ((∀ n, Ev.save n ∈
          [Ev.read 1,
           Ev.write 1 [{ year := 2008, crop_code := 36, longitude := 0,
                         latitude := 0, crop_name := some "Alfalfa" }]] →
        ∀ ev ∈ scanTrace testEnv 0, ev.chunkOf ≤ n →
          ev ∈ [Ev.read 1,
            Ev.write 1 [{ year := 2008, crop_code := 36, longitude := 0,
                          latitude := 0, crop_name := some "Alfalfa" }]]) ∧
      (∀ n recs, Ev.write n recs ∈
          [Ev.read 1,
           Ev.write 1 [{ year := 2008, crop_code := 36, longitude := 0,
                         latitude := 0, crop_name := some "Alfalfa" }]] →
        Ev.read n ∈
          [Ev.read 1,
           Ev.write 1 [{ year := 2008, crop_code := 36, longitude := 0,
                         latitude := 0, crop_name := some "Alfalfa" }]]) ∧
      (∀ p ∈ numberedWindows testEnv, 0 < p.1 →
        p.1 ≤ lastSave 0
            [Ev.read 1,
             Ev.write 1 [{ year := 2008, crop_code := 36, longitude := 0,
                           latitude := 0, crop_name := some "Alfalfa" }]] →
        ∀ ev ∈ windowEvents testEnv p.1 p.2,
          ev ∈ [Ev.read 1,
            Ev.write 1 [{ year := 2008, crop_code := 36, longitude := 0,
                          latitude := 0, crop_name := some "Alfalfa" }]]) ∧
      (∀ p ∈ numberedWindows testEnv, 0 < p.1 →
        Ev.save p.1 ∈ scanTrace testEnv 0) ∧
      (∀ n recs, Ev.write n recs ∈ scanTrace testEnv 0 → recs ≠ [])) :=
  ⟨by decide,
    scan_checkpoint_order testEnv 0
      [Ev.read 1,
       Ev.write 1 [{ year := 2008, crop_code := 36, longitude := 0,
                     latitude := 0, crop_name := some "Alfalfa" }]]
      [Ev.save 1] (by decide)⟩

/-- One `chunk_*.csv.gz` file in a year's chunks directory: its
chunk-number sort key and its parsed rows. -/
structure ChunkFile where
  name : Nat
  rows : List Record
deriving DecidableEq, Repr

/-- Outcomes of the merge's external I/O, supplied as an explicit
environment: whether `validate_chunk_file`'s one-row probe succeeds for a
file, whether the full read-and-append succeeds during merging, whether a
`shutil.move` to quarantine succeeds, the row count the reopened store
reports during verification (`none` models an exception while reopening),
whether `shutil.rmtree` succeeds, and the wall-clock date string. -/
structure MergeEnv where
  probeOk : Nat → Bool
  readOk : Nat → Bool
  moveOk : Nat → Bool
  reopenRows : Option Nat
  deleteOk : Bool
  now : String

/-- `validate_chunk_file`: `pd.read_csv(filepath, nrows=1)` either succeeds
or the file is reported corrupted. -/
def validate_chunk_file (env : MergeEnv) (c : ChunkFile) : Bool :=
  env.probeOk c.name

/-- The consolidated HDF5 store: the appended `data` table and the metadata
attached after the merge loop. -/
structure Store where
  data : List Record
  total_records : Nat
  year : Int
  processing_date : String
  num_chunks_processed : Nat
deriving DecidableEq, Repr

/-- The filesystem state the merge touches: the year's chunks directory and
its files, the `corrupted` quarantine subdirectory and its files, and the
final `cdl_california_<year>.h5` artifact. -/
structure MergeState where
  chunksDirExists : Bool
  chunks : List ChunkFile
  corruptDirExists : Bool
  corrupted : List ChunkFile
  final : Option Store
deriving DecidableEq, Repr

/-- Summary quantities of one merge run: the running record total, the
count of chunks that passed validation (`num_chunks_processed`), the files
moved to quarantine, and the verification outcome. -/
structure MergeReport where
  total_records : Nat
  total_valid : Nat
  moved : List ChunkFile
  verification_successful : Bool
deriving DecidableEq, Repr

/-- A chunk file ends up quarantined when it fails the validation probe, or
passes it but fails the read/append during merging — in each case provided
the `shutil.move` itself succeeds. -/
def quarantined (env : MergeEnv) (c : ChunkFile) : Bool :=
  (!validate_chunk_file env c && env.moveOk c.name) ||
    (validate_chunk_file env c && !env.readOk c.name && env.moveOk c.name)

/-- The chunks that actually reach the consolidated store: they pass the
validation probe and then the read-and-append. -/
def goodChunks (env : MergeEnv) (chunks : List ChunkFile) : List ChunkFile :=
  (chunks.filter (fun c => validate_chunk_file env c)).filter
    (fun c => env.readOk c.name)

/-- `merge_chunks` of `merge_chunk.py`.  Control flow from the source:
create the quarantine subdirectory (raises when the chunks directory is
missing); return early when no `chunk_*` files exist; validate every file,
moving unreadable ones to quarantine; open the final store with
`mode='w'` (truncating any existing artifact) and append every valid
chunk, quarantining files that fail mid-merge and continuing; attach
metadata; reopen the store and compare its row count with the running
total; delete the chunks directory only when that verification succeeded
(and keep it when the deletion itself fails); mismatches and reopen errors
are logged, not raised. -/
def merge_chunks (env : MergeEnv) (year : Int) (st : MergeState) :
    Except String (MergeState × Option MergeReport) :=
  if !st.chunksDirExists then
    Except.error "mkdir corrupted: chunks directory missing"
  else
    let st1 : MergeState := { st with corruptDirExists := true }
    if st.chunks.isEmpty then
      Except.ok (st1, none)
    else
      let valid_chunks := st.chunks.filter (fun c => validate_chunk_file env c)
      let movedV := st.chunks.filter
        (fun c => !validate_chunk_file env c && env.moveOk c.name)
      let appended := valid_chunks.filter (fun c => env.readOk c.name)
      let movedM := valid_chunks.filter
        (fun c => !env.readOk c.name && env.moveOk c.name)
      let total_records := (appended.map (fun c => c.rows.length)).sum
      let store : Store :=
        { data := appended.flatMap (fun c => c.rows),
          total_records := total_records,
          year := year,
          processing_date := env.now,
          num_chunks_processed := valid_chunks.length }
      let verification_successful :=
        decide (env.reopenRows = some total_records)
      let stMerged : MergeState :=
        { st1 with
            chunks := st.chunks.filter (fun c => !quarantined env c),
            corrupted := st.corrupted ++ (movedV ++ movedM),
            final := some store }
      let stFinal : MergeState :=
        if verification_successful && env.deleteOk then
          { stMerged with
              chunksDirExists := false
              chunks := []
              corruptDirExists := false
              corrupted := [] }
        else stMerged
      Except.ok (stFinal,
        some { total_records := total_records,
               total_valid := valid_chunks.length,
               moved := movedV ++ movedM,
               verification_successful := verification_successful })

lemma isEmpty_false_of_ne_nil {α : Type} {l : List α} (h : l ≠ []) :
    l.isEmpty = false := by
  cases l with
  | nil => exact absurd rfl h
  | cons a t => rfl

/-- C6: the merge deletes the chunk directory iff verification succeeded
(the reopened store's reported row count equals the running total) and the
deletion itself succeeds; on a count mismatch, a reopen error, or a
deletion error, the chunk directory is preserved (still holding every
non-quarantined file) and the run still returns normally — no error is
raised for the mismatch. -/
theorem merge_cleanup_iff_verification (env : MergeEnv) (year : Int)
    (st : MergeState) (hdir : st.chunksDirExists = true)
    (hne : st.chunks ≠ []) :
    ∃ st' rep, merge_chunks env year st = Except.ok (st', some rep) ∧
      (rep.verification_successful = true ↔
        env.reopenRows = some rep.total_records) ∧
      (st'.chunksDirExists = false ↔
        (rep.verification_successful = true ∧ env.deleteOk = true)) ∧
      ((env.reopenRows = none ∨ env.reopenRows ≠ some rep.total_records ∨
          env.deleteOk = false) →
        st'.chunksDirExists = true ∧
          st'.chunks = st.chunks.filter (fun c => !quarantined env c)) := by
  have hne' : st.chunks.isEmpty = false := isEmpty_false_of_ne_nil hne
  simp only [merge_chunks, hdir, Bool.not_true, Bool.false_eq_true, if_false,
    hne', ite_false]
  refine ⟨_, _, rfl, ?_, ?_, ?_⟩
  · simp
  · by_cases hv : (decide (env.reopenRows
        = some (((st.chunks.filter (fun c => validate_chunk_file env c)).filter
          (fun c => env.readOk c.name)).map (fun c => c.rows.length)).sum)
        && env.deleteOk) = true
    · rw [if_pos hv]
      simp only [Bool.and_eq_true, decide_eq_true_eq] at hv
      simp [hv.1, hv.2]
    · rw [if_neg hv]
      simp only [Bool.and_eq_true, decide_eq_true_eq] at hv
      simp only [hdir]
      constructor
      · intro h; cases h
      · intro h
        exact absurd ⟨of_decide_eq_true h.1, h.2⟩ hv
  · intro hfail
    have hv : (decide (env.reopenRows
        = some (((st.chunks.filter (fun c => validate_chunk_file env c)).filter
          (fun c => env.readOk c.name)).map (fun c => c.rows.length)).sum)
        && env.deleteOk) = false := by
      rcases hfail with hf | hf | hf
      · rcases hd : env.deleteOk
        · simp [hd]
        · simp [hf]
      · rcases hd : env.deleteOk
        · simp [hd]
        · simp only [hd, Bool.and_true]
          exact decide_eq_false hf
      · simp [hf]
    rw [if_neg (by rw [hv]; exact Bool.false_ne_true)]
    exact ⟨rfl, rfl⟩

/-- A concrete record used by the merge tests. -/
def rec0 : Record :=
  { year := 2008, crop_code := 36, longitude := 0, latitude := 0,
    crop_name := some "Alfalfa" }

/-- An environment whose reopened store reports a wrong row count
(count mismatch), with deletion available. -/
def mismatchEnv : MergeEnv :=
  { probeOk := fun _ => true, readOk := fun _ => true,
    moveOk := fun _ => true, reopenRows := some 999, deleteOk := true,
    now := "2024-01-02" }

/-- A chunks directory holding one chunk of one record. -/
def mismatchSt : MergeState :=
  { chunksDirExists := true, chunks := [{ name := 1, rows := [rec0] }],
    corruptDirExists := false, corrupted := [], final := none }

/-- Witness: `merge_cleanup_iff_verification` on a run whose verification
count mismatches. -/
theorem merge_cleanup_iff_verification_witness :
    mismatchSt.chunksDirExists = true ∧ mismatchSt.chunks ≠ [] ∧
    (∃ st' rep,
      merge_chunks mismatchEnv 2008 mismatchSt = Except.ok (st', some rep) ∧
      (rep.verification_successful = true ↔
        mismatchEnv.reopenRows = some rep.total_records) ∧
      (st'.chunksDirExists = false ↔
        (rep.verification_successful = true ∧ mismatchEnv.deleteOk = true)) ∧
      ((mismatchEnv.reopenRows = none ∨
          mismatchEnv.reopenRows ≠ some rep.total_records ∨
          mismatchEnv.deleteOk = false) →
        st'.chunksDirExists = true ∧
          st'.chunks = mismatchSt.chunks.filter
            (fun c => !quarantined mismatchEnv c))) :=
  ⟨by decide, by decide,
    merge_cleanup_iff_verification mismatchEnv 2008 mismatchSt
      (by decide) (by decide)⟩

/-- C7: every chunk file that fails the validation probe, or fails the
read/append during merging, contributes nothing to the consolidated store
or to `total_records` and is moved to quarantine when the move itself
succeeds; the merge still completes normally and the store holds exactly
the full contents of every chunk that passed both steps. -/
theorem merge_corruption_isolation (env : MergeEnv) (year : Int)
    (st : MergeState) (hdir : st.chunksDirExists = true)
    (hne : st.chunks ≠ []) :
    ∃ st' rep, merge_chunks env year st = Except.ok (st', some rep) ∧
      rep.total_records
          = ((goodChunks env st.chunks).map (fun c => c.rows.length)).sum ∧
      st'.final = some
        { data := (goodChunks env st.chunks).flatMap (fun c => c.rows),
          total_records :=
            ((goodChunks env st.chunks).map (fun c => c.rows.length)).sum,
          year := year, processing_date := env.now,
          num_chunks_processed :=
            (st.chunks.filter (fun c => validate_chunk_file env c)).length } ∧
      (∀ c ∈ st.chunks, validate_chunk_file env c = true →
          env.readOk c.name = true → c ∈ goodChunks env st.chunks) ∧
      (∀ c ∈ st.chunks,
          validate_chunk_file env c = false ∨ env.readOk c.name = false →
          c ∉ goodChunks env st.chunks ∧
            (env.moveOk c.name = true → c ∈ rep.moved)) := by
  have hne' : st.chunks.isEmpty = false := isEmpty_false_of_ne_nil hne
  simp only [merge_chunks, hdir, Bool.not_true, Bool.false_eq_true, if_false,
    hne', ite_false]
  refine ⟨_, _, rfl, rfl, ?_, ?_, ?_⟩
  · by_cases hv : (decide (env.reopenRows
        = some (((st.chunks.filter (fun c => validate_chunk_file env c)).filter
          (fun c => env.readOk c.name)).map (fun c => c.rows.length)).sum)
        && env.deleteOk) = true
    · rw [if_pos hv]; rfl
    · rw [if_neg hv]; rfl
  · intro c hc hval hread
    rw [goodChunks, List.mem_filter, List.mem_filter]
    exact ⟨⟨hc, hval⟩, hread⟩
  · intro c hc hbad
    constructor
    · intro hmem
      rw [goodChunks, List.mem_filter, List.mem_filter] at hmem
      rcases hbad with hb | hb
      · rw [hmem.1.2] at hb; cases hb
      · rw [hmem.2] at hb; cases hb
    · intro hmove
      rw [List.mem_append]
      rcases hval : validate_chunk_file env c
      · refine Or.inl ?_
        rw [List.mem_filter]
        exact ⟨hc, by rw [hval, hmove]; rfl⟩
      · have hread : env.readOk c.name = false := by
          rcases hbad with hb | hb
          · rw [hval] at hb; cases hb
          · exact hb
        refine Or.inr ?_
        rw [List.mem_filter]
        refine ⟨?_, by rw [hread, hmove]; rfl⟩
        rw [List.mem_filter]
        exact ⟨hc, hval⟩

/-- An environment where file 2 fails the validation probe and file 3
fails the read/append during merging; moves succeed, the reopened count
matches the one good chunk's single record. -/
def corruptEnv : MergeEnv :=
  { probeOk := fun n => n != 2, readOk := fun n => n != 3,
    moveOk := fun _ => true, reopenRows := some 1, deleteOk := false,
    now := "2024-01-02" }

/-- Three chunk files: one good, one failing validation, one failing the
merge read. -/
def corruptSt : MergeState :=
  { chunksDirExists := true,
    chunks := [{ name := 1, rows := [rec0] },
               { name := 2, rows := [rec0, rec0] },
               { name := 3, rows := [rec0] }],
    corruptDirExists := false, corrupted := [], final := none }

/-- Witness: `merge_corruption_isolation` on a run with one probe failure
and one mid-merge read failure. -/
theorem merge_corruption_isolation_witness :
    corruptSt.chunksDirExists = true ∧ corruptSt.chunks ≠ [] ∧
    (∃ st' rep,
      merge_chunks corruptEnv 2008 corruptSt = Except.ok (st', some rep) ∧
      rep.total_records
          = ((goodChunks corruptEnv corruptSt.chunks).map
              (fun c => c.rows.length)).sum ∧
      st'.final = some
        { data := (goodChunks corruptEnv corruptSt.chunks).flatMap
            (fun c => c.rows),
          total_records :=
            ((goodChunks corruptEnv corruptSt.chunks).map
              (fun c => c.rows.length)).sum,
          year := 2008, processing_date := corruptEnv.now,
          num_chunks_processed :=
            (corruptSt.chunks.filter
              (fun c => validate_chunk_file corruptEnv c)).length } ∧
      (∀ c ∈ corruptSt.chunks, validate_chunk_file corruptEnv c = true →
          corruptEnv.readOk c.name = true →
          c ∈ goodChunks corruptEnv corruptSt.chunks) ∧
      (∀ c ∈ corruptSt.chunks,
          validate_chunk_file corruptEnv c = false ∨
            corruptEnv.readOk c.name = false →
          c ∉ goodChunks corruptEnv corruptSt.chunks ∧
            (corruptEnv.moveOk c.name = true → c ∈ rep.moved))) :=
  ⟨by decide, by decide,
    merge_corruption_isolation corruptEnv 2008 corruptSt
      (by decide) (by decide)⟩

/-- The filesystem state `SingleYearCDLProcessor.process` consults and
updates: whether the final `cdl_california_<year>.csv.gz` exists, whether
the source `.tif` exists, the `progress.json` content, and the chunk files
on disk. -/
structure ScanState where
  finalCsvExists : Bool
  tifExists : Bool
  progressFile : Option Progress
  chunkFiles : List (Nat × List Record)
deriving DecidableEq, Repr

/-- `SingleYearCDLProcessor.process`: return immediately when the final
CSV artifact exists; return when the source raster is missing; otherwise
run the scan loop from the loaded checkpoint.  The state after a completed
scan holds the prior chunk files plus the trace's writes, and the
checkpoint file holds the last saved chunk number (untouched when no
window was processed).  The `merge_chunks` call at the end of the scan is
commented out in the source, so `process` performs no merge. -/
def process (e : ScanEnv) (st : ScanState) : ScanState × List Ev :=
  if st.finalCsvExists then (st, [])
  else if !st.tifExists then (st, [])
  else
    let start := (load_progress st.progressFile).last_chunk.toNat
    let tr := scanTrace e start
    (if tr.isEmpty then st
     else
       { st with
           chunkFiles := st.chunkFiles ++ writesOf tr,
           progressFile := some
             { last_chunk := Int.ofNat (lastSave start tr),
               status := (load_progress st.progressFile).status } },
     tr)

/-- A merge-phase state in which the final artifact for the year already
exists and one chunk file is present (exactly the on-disk situation after
a merge whose verification failed, or after an interrupted cleanup). -/
def staleArtifactSt : MergeState :=
  { chunksDirExists := true, chunks := [{ name := 1, rows := [rec0] }],
    corruptDirExists := false, corrupted := [],
    final := some { data := [], total_records := 0, year := 2008,
                    processing_date := "2024-01-01",
                    num_chunks_processed := 0 } }

/-- An environment in which every I/O step of the merge succeeds. -/
def allOkEnv : MergeEnv :=
  { probeOk := fun _ => true, readOk := fun _ => true,
    moveOk := fun _ => true, reopenRows := some 1, deleteOk := true,
    now := "2024-01-02" }

/-- The state after the merge re-runs over `staleArtifactSt` with every
step succeeding: the chunk was re-merged and cleanup ran. -/
def remergedSt : MergeState :=
  { chunksDirExists := false
    chunks := []
    corruptDirExists := false
    corrupted := []
    final := some { data := [rec0]
                    total_records := 1
                    year := 2008
                    processing_date := "2024-01-02"
                    num_chunks_processed := 1 } }

/-- The report of that re-run: one record re-merged. -/
def remergedRep : MergeReport :=
  { total_records := 1
    total_valid := 1
    moved := []
    verification_successful := true }

/-- C1 counterexample: with the final artifact for the year present
(`staleArtifactSt.final` is set — the situation after a merge whose
verification failed, which deliberately preserves the chunks) and one
chunk file remaining, a subsequent merge run does not skip: it re-merges
the chunk (`total_records = 1`), overwrites the artifact and changes the
state.  `merge_chunks` never consults the final artifact, so artifact
existence is not a global idempotence marker for the merge phase. -/
theorem final_artifact_does_not_skip_merge :
    staleArtifactSt.final.isSome = true ∧
    merge_chunks allOkEnv 2008 staleArtifactSt
      = Except.ok (remergedSt, some remergedRep) ∧
    remergedSt ≠ staleArtifactSt ∧
    remergedRep.total_records = 1 :=
  ⟨rfl, rfl, by decide, rfl⟩

/-- C1 amended: the scan phase does skip on its artifact — when the final
CSV exists, `process` returns immediately with no events and the state
unchanged.  The merge phase does not consult the final artifact at all: it
returns without merging only when the chunks directory holds no chunk
files, and even then it still creates the quarantine subdirectory (the
only state change); with chunk files present it re-merges regardless of
the artifact. -/
theorem artifact_skip_amended (e : ScanEnv) (env : MergeEnv) (year : Int)
    (stS : ScanState) (stM : MergeState)
    (hcsv : stS.finalCsvExists = true)
    (hdir : stM.chunksDirExists = true) (hnochunks : stM.chunks = []) :
    process e stS = (stS, []) ∧
    merge_chunks env year stM
      = Except.ok ({ stM with corruptDirExists := true }, none) := by
  constructor
  · rw [process, if_pos hcsv]
  · rw [merge_chunks]
    rw [if_neg (by rw [hdir]; exact fun h => by cases h)]
    rw [if_pos (by rw [hnochunks]; rfl)]

/-- A scan state whose final CSV artifact exists. -/
def doneScanSt : ScanState :=
  { finalCsvExists := true
    tifExists := true
    progressFile := none
    chunkFiles := [] }

/-- A merge state with an existing but empty chunks directory. -/
def emptyChunksSt : MergeState :=
  { chunksDirExists := true
    chunks := []
    corruptDirExists := false
    corrupted := []
    final := none }

/-- Witness: `artifact_skip_amended` at `doneScanSt` and `emptyChunksSt`. -/
theorem artifact_skip_amended_witness :
    doneScanSt.finalCsvExists = true ∧
    emptyChunksSt.chunksDirExists = true ∧
    emptyChunksSt.chunks = [] ∧
    (process testEnv doneScanSt = (doneScanSt, []) ∧
     merge_chunks allOkEnv 2008 emptyChunksSt
       = Except.ok ({ emptyChunksSt with corruptDirExists := true }, none)) :=
  ⟨rfl, rfl, rfl,
    artifact_skip_amended testEnv allOkEnv 2008 doneScanSt emptyChunksSt
      rfl rfl rfl⟩
